import Mathlib

/-!
Verification of the `memoize` library (package `memoize`, modules
`memoize/memoize.py` and `memoize/memparams.py`; `setup.py` ships only this
package).  The Python code is shallowly embedded: caches and slot storage
become association lists, Python objects become numeric identities, raised
exceptions become explicit `Except`/`Option` values, and the hashability of a
value is an explicit boolean predicate (Python `hash(x)` succeeding).
-/

namespace Memoize

/-- Association-list lookup, modelling Python dict indexing (`d[k]` /
`k in d`).  Returns `none` where Python raises `KeyError` / `in` is false. -/
def lookupA {α β : Type} [DecidableEq α] (k : α) : List (α × β) → Option β
  | [] => none
  | p :: ps => if p.1 = k then some p.2 else lookupA k ps

/-! ## memoize_function (memoize/memoize.py, lines 82-128)

`memoize_function.__call__` builds a `_HashableDict` key from the full call
arguments and then runs
```
try:
    if key in cache: return cache[key]
    else: cache[key] = res = f(*args, **kwargs); return res
except TypeError:
    return f(*args, **kwargs)
```
The key is modelled by an abstract type `A` with decidable equality (the
canonical callargs mapping), `hashable a` models `hash(key)` succeeding, and
the `TypeError` raised by `key in cache` on an unhashable key is the
`Except.error` of `tryLookupStore`.  The third component of the result
records whether `f` was invoked by the call. -/

/-- Body of the `try` block of `memoize_function.__call__`: hashing the key
(`key in cache`) raises `TypeError` when the key is unhashable; otherwise a
hit returns the stored value and a miss computes `f a`, stores it and
returns it. -/
def tryLookupStore {A R : Type} [DecidableEq A] (hashable : A → Bool) (f : A → R)
    (cache : List (A × R)) (a : A) : Except Unit (R × List (A × R) × Bool) :=
  if hashable a then
    match lookupA a cache with
    | some r => Except.ok (r, cache, false)
    | none => Except.ok (f a, cache ++ [(a, f a)], true)
  else Except.error ()

/-- `memoize_function.__call__`: run the `try` block; on `TypeError` fall
back to the uncached call `f(*args, **kwargs)` (the `except` clause). -/
def memoize_function.call {A R : Type} [DecidableEq A] (hashable : A → Bool)
    (f : A → R) (cache : List (A × R)) (a : A) : R × List (A × R) × Bool :=
  match tryLookupStore hashable f cache a with
  | Except.ok res => res
  | Except.error _ => (f a, cache, true)

/-- `memoize_function.clear_cache`: empties the function's cache dict. -/
def memoize_function.clear_cache {A R : Type} (_cache : List (A × R)) :
    List (A × R) := []

/-- A sequence of calls to the memoized wrapper, threading the cache and
recording, per call, the argument, the returned value and whether `f` was
invoked. -/
def runTrace {A R : Type} [DecidableEq A] (hashable : A → Bool) (f : A → R) :
    List A → List (A × R) → List (A × R × Bool)
  | [], _ => []
  | a :: as, cache =>
    let s := memoize_function.call hashable f cache a
    (a, s.1, s.2.2) :: runTrace hashable f as s.2.1

/-- Number of calls in a trace that used key `a` and invoked `f`. -/
def invocations {A R : Type} [DecidableEq A] (a : A) (tr : List (A × R × Bool)) :
    Nat :=
  (tr.filter (fun t => decide (t.1 = a) && t.2.2)).length

theorem lookupA_append_left {α β : Type} [DecidableEq α] (k : α) (r : β)
    (c l : List (α × β)) (h : lookupA k c = some r) :
    lookupA k (c ++ l) = some r := by
  induction c with
  | nil => simp [lookupA] at h
  | cons p ps ih =>
    by_cases hp : p.1 = k
    · rw [lookupA, if_pos hp] at h
      simp only [List.cons_append, lookupA, if_pos hp]
      exact h
    · rw [lookupA, if_neg hp] at h
      simp only [List.cons_append, lookupA, if_neg hp]
      exact ih h

theorem lookupA_append_none {α β : Type} [DecidableEq α] (k : α)
    (c l : List (α × β)) (h : lookupA k c = none) :
    lookupA k (c ++ l) = lookupA k l := by
  induction c with
  | nil => simp
  | cons p ps ih =>
    by_cases hp : p.1 = k
    · simp [lookupA, hp] at h
    · simp only [lookupA, hp, if_false] at h
      simp only [List.cons_append, lookupA, hp, if_false]
      exact ih h

/-- While key `a` is in the cache, no later call with key `a` invokes `f`. -/
theorem invocations_of_cached {A R : Type} [DecidableEq A] (hashable : A → Bool)
    (f : A → R) (a : A) (r : R) (ha : hashable a = true) :
    ∀ (as : List A) (c : List (A × R)), lookupA a c = some r →
      invocations a (runTrace hashable f as c) = 0 := by
  intro as
  induction as with
  | nil => intro c _; simp [runTrace, invocations]
  | cons b bs ih =>
    intro c hc
    by_cases hb : b = a
    · subst hb
      have hcall : memoize_function.call hashable f c b = (r, c, false) := by
        simp [memoize_function.call, tryLookupStore, ha, hc]
      have hstep : runTrace hashable f (b :: bs) c
          = (b, r, false) :: runTrace hashable f bs c := by
        simp only [runTrace, hcall]
      rw [hstep]
      have h0 := ih c hc
      simpa [invocations, List.filter_cons] using h0
    · have hkeep : ∀ c2 : List (A × R),
          (memoize_function.call hashable f c2 b).2.1 = c2 ∨
          (memoize_function.call hashable f c2 b).2.1 = c2 ++ [(b, f b)] := by
        intro c2
        cases hh : hashable b with
        | false => simp [memoize_function.call, tryLookupStore, hh]
        | true =>
          cases hl : lookupA b c2 with
          | none => simp [memoize_function.call, tryLookupStore, hh, hl]
          | some r2 => simp [memoize_function.call, tryLookupStore, hh, hl]
      have hc2 : lookupA a (memoize_function.call hashable f c b).2.1 = some r := by
        rcases hkeep c with h1 | h1
        · rw [h1]; exact hc
        · rw [h1]; exact lookupA_append_left a r c [(b, f b)] hc
      have hstep : runTrace hashable f (b :: bs) c
          = (b, (memoize_function.call hashable f c b).1,
              (memoize_function.call hashable f c b).2.2)
            :: runTrace hashable f bs (memoize_function.call hashable f c b).2.1 := by
        simp only [runTrace]
      rw [hstep]
      have h0 := ih _ hc2
      simpa [invocations, List.filter_cons, hb] using h0

/-- In a cache that only stores results of `f`, a hit for key `a` returns
`f a`. -/
theorem lookupA_of_cacheOK {A R : Type} [DecidableEq A] (f : A → R)
    (c : List (A × R)) (hok : ∀ p ∈ c, p.2 = f p.1) (a : A) (r : R)
    (h : lookupA a c = some r) : r = f a := by
  induction c with
  | nil => simp [lookupA] at h
  | cons p ps ih =>
    by_cases hp : p.1 = a
    · rw [lookupA, if_pos hp] at h
      have hpv := hok p (by simp)
      rw [← hp]
      rw [← Option.some_inj.mp h]
      exact hpv
    · rw [lookupA, if_neg hp] at h
      exact ih (fun q hq => hok q (List.mem_cons_of_mem p hq)) h

/-- Every call in a trace of the memoized wrapper of a pure `f` returns
`f` of its argument, provided the starting cache only stores results of
`f`. -/
theorem runTrace_results {A R : Type} [DecidableEq A] (hashable : A → Bool)
    (f : A → R) :
    ∀ (as : List A) (c : List (A × R)), (∀ p ∈ c, p.2 = f p.1) →
      ∀ t ∈ runTrace hashable f as c, t.2.1 = f t.1 := by
  intro as
  induction as with
  | nil => intro c _ t ht; simp [runTrace] at ht
  | cons a as ih =>
    intro c hok t ht
    have hstep : runTrace hashable f (a :: as) c
        = (a, (memoize_function.call hashable f c a).1,
            (memoize_function.call hashable f c a).2.2)
          :: runTrace hashable f as (memoize_function.call hashable f c a).2.1 := by
      simp only [runTrace]
    rw [hstep] at ht
    rcases List.mem_cons.mp ht with h1 | h1
    · subst h1
      cases hh : hashable a with
      | false => simp [memoize_function.call, tryLookupStore, hh]
      | true =>
        cases hl : lookupA a c with
        | none => simp [memoize_function.call, tryLookupStore, hh, hl]
        | some r =>
          have := lookupA_of_cacheOK f c hok a r hl
          simp [memoize_function.call, tryLookupStore, hh, hl, this]
    · have hok2 : ∀ p ∈ (memoize_function.call hashable f c a).2.1, p.2 = f p.1 := by
        cases hh : hashable a with
        | false => simpa [memoize_function.call, tryLookupStore, hh] using hok
        | true =>
          cases hl : lookupA a c with
          | none =>
            simp only [memoize_function.call, tryLookupStore, hh, if_true, hl]
            intro p hp
            rcases List.mem_append.mp hp with h2 | h2
            · exact hok p h2
            · simp at h2; rw [h2]
          | some r => simpa [memoize_function.call, tryLookupStore, hh, hl] using hok
      exact ih _ hok2 t h1

/-- Between two clears, the memoized wrapper invokes `f` at most once per
hashable cache key, over any sequence of calls. -/
theorem invocations_le_one {A R : Type} [DecidableEq A] (hashable : A → Bool)
    (f : A → R) (a : A) (ha : hashable a = true) :
    ∀ (as : List A) (c : List (A × R)),
      invocations a (runTrace hashable f as c) ≤ 1 := by
  intro as
  induction as with
  | nil => intro c; simp [runTrace, invocations]
  | cons b bs ih =>
    intro c
    by_cases hb : b = a
    · subst hb
      cases hl : lookupA b c with
      | some r =>
        have h0 := invocations_of_cached hashable f b r ha bs c hl
        have hcall : memoize_function.call hashable f c b = (r, c, false) := by
          simp [memoize_function.call, tryLookupStore, ha, hl]
        have hstep : runTrace hashable f (b :: bs) c
            = (b, r, false) :: runTrace hashable f bs c := by
          simp only [runTrace, hcall]
        have hdrop : invocations b ((b, r, false) :: runTrace hashable f bs c)
            = invocations b (runTrace hashable f bs c) := by
          simp [invocations, List.filter_cons]
        rw [hstep, hdrop, h0]
        exact Nat.zero_le 1
      | none =>
        have hcall : memoize_function.call hashable f c b
            = (f b, c ++ [(b, f b)], true) := by
          simp [memoize_function.call, tryLookupStore, ha, hl]
        have hstep : runTrace hashable f (b :: bs) c
            = (b, f b, true) :: runTrace hashable f bs (c ++ [(b, f b)]) := by
          simp only [runTrace, hcall]
        have hc2 : lookupA b (c ++ [(b, f b)]) = some (f b) := by
          rw [lookupA_append_none b c [(b, f b)] hl]
          simp [lookupA]
        have h0 := invocations_of_cached hashable f b (f b) ha bs _ hc2
        have hkeepone : invocations b
              ((b, f b, true) :: runTrace hashable f bs (c ++ [(b, f b)]))
            = invocations b (runTrace hashable f bs (c ++ [(b, f b)])) + 1 := by
          simp [invocations, List.filter_cons]
        rw [hstep, hkeepone, h0]
    · have hstep : runTrace hashable f (b :: bs) c
          = (b, (memoize_function.call hashable f c b).1,
              (memoize_function.call hashable f c b).2.2)
            :: runTrace hashable f bs (memoize_function.call hashable f c b).2.1 := by
        simp only [runTrace]
      rw [hstep]
      have h0 := ih (memoize_function.call hashable f c b).2.1
      simpa [invocations, List.filter_cons, hb] using h0

/-- Claim C3: for every function and every argument list whose cache key is
unhashable, `memoize_function.__call__` raises a `TypeError` internally at
`key in cache` (modelled by `tryLookupStore` returning an error), catches
it, invokes `f`, returns `f`'s result, and leaves the cache unchanged: no
hashing-related exception escapes to the caller, which receives a plain
value. -/
theorem unhashable_call_uncached {A R : Type} [DecidableEq A]
    (hashable : A → Bool) (f : A → R) (cache : List (A × R)) (a : A)
    (h : hashable a = false) :
    tryLookupStore hashable f cache a = Except.error ()
    ∧ memoize_function.call hashable f cache a = (f a, cache, true) := by
  constructor
  · simp [tryLookupStore, h]
  · simp [memoize_function.call, tryLookupStore, h]

/-- Witness for `unhashable_call_uncached` at a concrete unhashable
argument. -/
theorem unhashable_call_uncached_witness :
    ((fun n : Nat => decide (n % 2 = 0)) 3 = false)
    ∧ (tryLookupStore (fun n : Nat => decide (n % 2 = 0)) (fun n => n + 1)
        [(2, 3)] 3 = Except.error ()
      ∧ memoize_function.call (fun n : Nat => decide (n % 2 = 0)) (fun n => n + 1)
          [(2, 3)] 3 = (4, [(2, 3)], true)) :=
  ⟨by decide,
   unhashable_call_uncached (fun n : Nat => decide (n % 2 = 0)) (fun n => n + 1)
     [(2, 3)] 3 (by decide)⟩

/-- Claim C4: for a pure function `f` and a hashable key `a`, over any call
sequence starting from an empty (freshly cleared) cache, `f` is invoked at
most once for key `a`; every call in the sequence returns `f` of its
argument (so repeated calls with equal keys receive the stored value); and
after `clear_cache` empties the cache, the next call with a previously
cached key invokes `f` again. -/
theorem pure_function_memoized {A R : Type} [DecidableEq A]
    (hashable : A → Bool) (f : A → R) (a : A) (as : List A)
    (c : List (A × R)) (ha : hashable a = true) :
    invocations a (runTrace hashable f as []) ≤ 1
    ∧ (∀ t ∈ runTrace hashable f as ([] : List (A × R)), t.2.1 = f t.1)
    ∧ (memoize_function.call hashable f (memoize_function.clear_cache c) a).2.2
        = true := by
  refine ⟨invocations_le_one hashable f a ha as [], ?_, ?_⟩
  · exact runTrace_results hashable f as [] (by simp)
  · simp [memoize_function.call, tryLookupStore, memoize_function.clear_cache,
      ha, lookupA]

/-- Witness for `pure_function_memoized` at a concrete call sequence with a
repeated key. -/
theorem pure_function_memoized_witness :
    ((fun _ : Nat => true) 2 = true)
    ∧ (invocations 2 (runTrace (fun _ : Nat => true) (fun n => n + 1)
          [2, 2, 3] []) ≤ 1
      ∧ (∀ t ∈ runTrace (fun _ : Nat => true) (fun n => n + 1) [2, 2, 3]
            ([] : List (Nat × Nat)), t.2.1 = t.1 + 1)
      ∧ (memoize_function.call (fun _ : Nat => true) (fun n => n + 1)
          (memoize_function.clear_cache [(2, 3)]) 2).2.2 = true) :=
  ⟨rfl,
   pure_function_memoized (fun _ : Nat => true) (fun n => n + 1) 2 [2, 2, 3]
     [(2, 3)] rfl⟩

/-! ## memoize_method (memoize/memoize.py, lines 196-243)

Python objects are modelled by numeric identities (`Nat`); `is` comparison
becomes equality of identities, and `hashable v` models `hash(v)`
succeeding.  `getcallargs(f, *args)` maps parameter names to values in
positional order, the receiver (`self` parameter) first; `__call__` then
deletes the first entry whose value `is` the receiver, builds the key
`(f.__name__, _HashableDict(callargs))`, and runs the same try/except
hit/miss logic as `memoize_function.__call__` against the per-instance
cache.  The third component of `memoize_method.call`'s result records
whether `f` was invoked. -/

/-- A method decorated with `memoize_method`: the underlying function, its
`__name__`, its `self` parameter name and its remaining parameter names in
positional order. -/
structure MMethod (R : Type) where
  fname : String
  selfName : String
  paramNames : List String
  f : Nat → List Nat → R

/-- Per-instance method cache: maps `(f.__name__, callargs)` keys to
results. -/
abbrev MCache (R : Type) := List ((String × List (String × Nat)) × R)

/-- The loop `for (key, value) in callargs.items(): if value is obj: del
callargs[key]; break` — removes the first binding whose value is the
receiver. -/
def removeFirstValue (v : Nat) : List (String × Nat) → List (String × Nat)
  | [] => []
  | p :: ps => if p.2 = v then ps else p :: removeFirstValue v ps

/-- `getcallargs(f, obj, *args)`: the `self` binding first, then the
remaining parameters zipped with the supplied arguments. -/
def callargsOf {R : Type} (m : MMethod R) (obj : Nat) (args : List Nat) :
    List (String × Nat) :=
  (m.selfName, obj) :: m.paramNames.zip args

/-- `key = (f.__name__, _HashableDict(callargs))` after the receiver has
been removed from `callargs`. -/
def methodKey {R : Type} (m : MMethod R) (obj : Nat) (args : List Nat) :
    String × List (String × Nat) :=
  (m.fname, removeFirstValue obj (callargsOf m obj args))

/-- `memoize_method.__call__`: build the key, then `try` the hit/miss logic
on the instance's cache; hashing the key (`key in cache`) raises `TypeError`
iff some value remaining in the key is unhashable, in which case the
`except` clause calls `f` directly without caching. -/
def memoize_method.call {R : Type} (hashable : Nat → Bool) (m : MMethod R)
    (obj : Nat) (args : List Nat) (cache : MCache R) : R × MCache R × Bool :=
  let key := methodKey m obj args
  if key.2.all (fun p => hashable p.2) then
    match lookupA key cache with
    | some r => (r, cache, false)
    | none => (m.f obj args, cache ++ [(key, m.f obj args)], true)
  else (m.f obj args, cache, true)

/-- Result of the descriptor protocol `memoize_method.__get__`: accessing
the decorated method on the class (`obj is None`) yields the raw
undecorated function `self.f`; accessing it on an instance yields
`partial(self, obj)`, a bound caching callable. -/
inductive BoundOrRaw (R : Type) where
  | raw (f : Nat → List Nat → R)
  | bound (m : MMethod R) (obj : Nat)

/-- `memoize_method.__get__(obj, otype)`. -/
def memoize_method.get {R : Type} (m : MMethod R) (obj : Option Nat) :
    BoundOrRaw R :=
  match obj with
  | none => BoundOrRaw.raw m.f
  | some o => BoundOrRaw.bound m o

/-- An ordinary Python call `f(obj, *args)` of an undecorated function: the
function body runs and the instance's method cache is neither read nor
written. -/
def rawCall {R : Type} (f : Nat → List Nat → R) (obj : Nat) (args : List Nat)
    (cache : MCache R) : R × MCache R := (f obj args, cache)

/-- Claim C2: retrieving the decorated method from the class
(`memoize_method.__get__` with `obj is None`) yields the raw undecorated
function, so invoking it in unbound form with an explicit instance returns
the undecorated result and leaves the instance's cache identical — in
particular a previously cached value `w` for the same key is not returned,
although a bound call through instance attribute access would have returned
it. -/
theorem unbound_call_no_cache {R : Type} [DecidableEq R]
    (hashable : Nat → Bool) (m : MMethod R) (obj : Nat) (args : List Nat)
    (cache : MCache R) (w : R)
    (hcache : lookupA (methodKey m obj args) cache = some w) :
    memoize_method.get m none = BoundOrRaw.raw m.f
    ∧ rawCall m.f obj args cache = (m.f obj args, cache)
    ∧ ((methodKey m obj args).2.all (fun p => hashable p.2) = true →
        memoize_method.call hashable m obj args cache = (w, cache, false)) := by
  refine ⟨rfl, rfl, fun hk => ?_⟩
  simp [memoize_method.call, hk, hcache]

/-- Witness for `unbound_call_no_cache`: a stale value 99 is cached for key
`("meth", [("x", 5)])`; the unbound call returns the freshly computed 7 and
leaves the cache unchanged, while the bound call would return 99. -/
theorem unbound_call_no_cache_witness :
    lookupA (methodKey ⟨"meth", "self", ["x"], fun o a => o + a.headD 0⟩ 2 [5])
        [((("meth" : String), [(("x" : String), 5)]), (99 : Nat))] = some 99
    ∧ (memoize_method.get
          (⟨"meth", "self", ["x"], fun o a => o + a.headD 0⟩ : MMethod Nat) none
        = BoundOrRaw.raw (fun o a => o + a.headD 0)
      ∧ rawCall (fun o a => o + a.headD 0) 2 [5]
          [((("meth" : String), [(("x" : String), 5)]), (99 : Nat))]
        = (7, [((("meth" : String), [(("x" : String), 5)]), (99 : Nat))])
      ∧ ((methodKey (⟨"meth", "self", ["x"], fun o a => o + a.headD 0⟩ :
            MMethod Nat) 2 [5]).2.all (fun p => (fun _ => true) p.2) = true →
          memoize_method.call (fun _ => true)
            ⟨"meth", "self", ["x"], fun o a => o + a.headD 0⟩ 2 [5]
            [((("meth" : String), [(("x" : String), 5)]), (99 : Nat))]
          = (99, [((("meth" : String), [(("x" : String), 5)]), (99 : Nat))],
              false))) :=
  ⟨by decide,
   unbound_call_no_cache (fun _ => true)
     ⟨"meth", "self", ["x"], fun o a => o + a.headD 0⟩ 2 [5]
     [((("meth" : String), [(("x" : String), 5)]), (99 : Nat))] 99 (by decide)⟩

/-- Claim C5: the receiver's binding is deleted from `callargs` before any
hashing takes place, so the cache key is `(f.__name__, remaining
parameter/argument bindings)` — independent of the receiver's identity or
hashability — and, whenever the remaining argument values are hashable, the
bound call performs normal hit/miss caching even if the receiver itself is
unhashable.  Two bound calls on the same receiver with equal remaining
arguments therefore produce equal cache keys. -/
theorem receiver_excluded_from_key {R : Type} (hashable : Nat → Bool)
    (m : MMethod R) (obj : Nat) (args : List Nat) (cache : MCache R)
    (hargs : ∀ v ∈ args, hashable v = true) :
    methodKey m obj args = (m.fname, m.paramNames.zip args)
    ∧ memoize_method.call hashable m obj args cache
      = (match lookupA (m.fname, m.paramNames.zip args) cache with
         | some r => (r, cache, false)
         | none => (m.f obj args,
             cache ++ [((m.fname, m.paramNames.zip args), m.f obj args)],
             true)) := by
  have hkey : methodKey m obj args = (m.fname, m.paramNames.zip args) := by
    simp [methodKey, callargsOf, removeFirstValue]
  refine ⟨hkey, ?_⟩
  have hall : (methodKey m obj args).2.all (fun p => hashable p.2) = true := by
    rw [hkey]
    rw [List.all_eq_true]
    intro p hp
    exact hargs p.2 (List.of_mem_zip hp).2
  rw [memoize_method.call]
  rw [if_pos hall]
  rw [hkey]

/-- Witness for `receiver_excluded_from_key`: the receiver has identity 0,
which is unhashable under `hashable n = (n ≠ 0)`, yet the key is
`("meth", [("x", 5)])` and the call is cached normally. -/
theorem receiver_excluded_from_key_witness :
    (∀ v ∈ [(5 : Nat)], (fun n : Nat => decide (n ≠ 0)) v = true)
    ∧ (methodKey (⟨"meth", "self", ["x"], fun o a => o + a.headD 0⟩ :
          MMethod Nat) 0 [5]
        = ("meth", [("x", 5)])
      ∧ memoize_method.call (fun n : Nat => decide (n ≠ 0))
          ⟨"meth", "self", ["x"], fun o a => o + a.headD 0⟩ 0 [5] []
        = (match lookupA (("meth" : String), [(("x" : String), (5 : Nat))])
              ([] : MCache Nat) with
           | some r => (r, ([] : MCache Nat), false)
           | none => (5, [((("meth" : String), [(("x" : String), 5)]), 5)],
               true))) :=
  ⟨by decide,
   receiver_excluded_from_key (fun n : Nat => decide (n ≠ 0))
     ⟨"meth", "self", ["x"], fun o a => o + a.headD 0⟩ 0 [5] [] (by decide)⟩

/-! ## Friend graph and cascading clear (memoize/memoize.py, lines 245-324)

The friend lists stored at `memoize_friends` on each instance are modelled
as an association list from instance identity to its friend list (Python
stores a `set`; the model keeps a duplicate-free list, with `set.add`
becoming append-if-absent).  `memoize_method.clear_cache(obj)` clears
`obj`'s own cache and then recurses into every friend that is not `obj`
itself; it keeps **no** visited set.  `clearSequence` returns the ordered
sequence of instances whose caches get cleared, with an explicit recursion
depth budget `fuel`: a result of `none` for every `fuel` means the Python
recursion never bottoms out (unbounded mutual recursion, i.e.
`RecursionError`). -/

abbrev FriendGraph := List (Nat × List Nat)

/-- `getattr(obj, memoize_method.friend_list_name)` guarded by `hasattr`:
no attribute means no friends to recurse into. -/
def getFriends (g : FriendGraph) (obj : Nat) : List Nat :=
  match lookupA obj g with
  | some l => l
  | none => []

/-- Replace `host`'s friend list (in-place `set.add` on an existing
attribute). -/
def updateFriends (g : FriendGraph) (host : Nat) (l : List Nat) :
    FriendGraph :=
  g.map (fun p => if p.1 = host then (host, l) else p)

/-- `memoize_method.register_friend(host, friend)`: a no-op when `friend is
host`; otherwise adds `friend` to `host`'s friend set, creating the set as
`{friend}` when the attribute does not yet exist. -/
def memoize_method.register_friend (g : FriendGraph) (host friend : Nat) :
    FriendGraph :=
  if friend = host then g
  else
    match lookupA host g with
    | some l =>
        if friend ∈ l then g else updateFriends g host (l ++ [friend])
    | none => (host, [friend]) :: g

/-- `memoize_method.clear_cache(obj)` as the sequence of instances whose
caches it clears, in order: first `obj` itself, then recursively each
friend that is not `obj`.  `fuel` bounds the recursion depth; `none` means
the budget was exceeded. -/
def clearSequence (g : FriendGraph) : Nat → Nat → Option (List Nat)
  | 0, _ => none
  | fuel + 1, obj =>
    ((getFriends g obj).filter (fun fr => decide (fr ≠ obj))).foldl
      (fun acc fr =>
        match acc with
        | none => none
        | some l =>
          match clearSequence g fuel fr with
          | none => none
          | some l2 => some (l ++ l2))
      (some [obj])

/-- The two-instance cycle of the claim: friend edges 0 → 1 and 1 → 0. -/
def cycleGraph : FriendGraph := [(0, [1]), (1, [0])]

/-- A diamond: 0 → 1, 0 → 2, 1 → 3, 2 → 3, so instance 3 is reachable along
two paths. -/
def diamondGraph : FriendGraph := [(0, [1, 2]), (1, [3]), (2, [3]), (3, [])]

/-- On the two-instance cycle, the cascading clear started at either
instance exhausts every recursion depth budget. -/
theorem clearSequence_cycle_none :
    ∀ n : Nat, clearSequence cycleGraph n 0 = none
      ∧ clearSequence cycleGraph n 1 = none := by
  intro n
  induction n with
  | zero => exact ⟨rfl, rfl⟩
  | succ n ih =>
    constructor
    · have h2 : clearSequence [(0, [1]), (1, [0])] n 1 = none := ih.2
      simp [clearSequence, cycleGraph, getFriends, lookupA, h2]
    · have h1 : clearSequence [(0, [1]), (1, [0])] n 0 = none := ih.1
      simp [clearSequence, cycleGraph, getFriends, lookupA, h1]

/-- Claim C1 (refuted, code bug): on the friend cycle 0 → 1 → 0,
`memoize_method.clear_cache(0)` never terminates — the recursion guards
only against the direct self-edge, not against revisiting — and on the
diamond graph the one run that does terminate clears instance 3 twice, once
per path, not at most once. -/
theorem clear_cache_diverges_on_cycle :
    (∀ fuel : Nat, clearSequence cycleGraph fuel 0 = none)
    ∧ clearSequence diamondGraph 4 0 = some [0, 1, 3, 2, 3] := by
  refine ⟨fun fuel => (clearSequence_cycle_none fuel).1, by decide⟩

/-- Auxiliary for registration idempotence: refreshing the friend list of a
host that is present in the graph makes lookup return the new list. -/
theorem lookupA_updateFriends (g : FriendGraph) (host : Nat) (l m : List Nat)
    (h : lookupA host g = some l) :
    lookupA host (updateFriends g host m) = some m := by
  induction g with
  | nil => simp [lookupA] at h
  | cons p ps ih =>
    by_cases hp : p.1 = host
    · simp [updateFriends, lookupA, hp]
    · rw [lookupA, if_neg hp] at h
      simp only [updateFriends, List.map_cons]
      rw [if_neg hp, lookupA, if_neg hp]
      exact ih h

/-- Registering an already-present friend edge leaves the graph
unchanged. -/
theorem register_friend_idem_general (g : FriendGraph) (host friend : Nat) :
    memoize_method.register_friend
      (memoize_method.register_friend g host friend) host friend
    = memoize_method.register_friend g host friend := by
  by_cases hf : friend = host
  · simp [memoize_method.register_friend, hf]
  · cases hl : lookupA host g with
    | some l =>
      by_cases hmem : friend ∈ l
      · simp [memoize_method.register_friend, hf, hl, hmem]
      · have h2 : lookupA host (updateFriends g host (l ++ [friend]))
            = some (l ++ [friend]) :=
          lookupA_updateFriends g host l (l ++ [friend]) hl
        simp [memoize_method.register_friend, hf, hl, hmem, h2]
    | none => simp [memoize_method.register_friend, hf, hl, lookupA]

/-- Claim C10: `register_friend` is idempotent — registering an existing
edge leaves the friend graph unchanged for every graph, host and friend —
and after registering the edge 0 → 1 twice, the cascading clear from 0
clears friend 1 exactly once, exactly as after a single registration. -/
theorem register_friend_idempotent :
    (∀ (g : FriendGraph) (host friend : Nat),
      memoize_method.register_friend
        (memoize_method.register_friend g host friend) host friend
      = memoize_method.register_friend g host friend)
    ∧ memoize_method.register_friend
        (memoize_method.register_friend [] 0 1) 0 1 = [(0, [1])]
    ∧ clearSequence
        (memoize_method.register_friend
          (memoize_method.register_friend [] 0 1) 0 1) 2 0 = some [0, 1]
    ∧ clearSequence (memoize_method.register_friend [] 0 1) 2 0
        = some [0, 1] :=
  ⟨register_friend_idem_general, by decide, by decide, by decide⟩

/-! ## _MemparamStorage and pickling (memoize/memparams.py, lines 70-144)

`memparamstorage(base, obj, value)` builds a `_MemparamStorage` proxy
derived from the base type, holding the value and a back-reference `obj` to
the owning instance.  Base types are identified by name (`String`), owning
instances by identity (`Nat`). -/

/-- A `_MemparamStorage` proxy instance: base type, back-reference to the
owning instance, current value. -/
structure Storage (V : Type) where
  base : String
  obj : Nat
  value : V
deriving DecidableEq

/-- `memparamstorage(base, obj, value)`: derive a fresh proxy of type
`base` around the value and attach the back-reference. -/
def memparamstorage {V : Type} (base : String) (obj : Nat) (v : V) :
    Storage V :=
  ⟨base, obj, v⟩

/-- `self.base(self)`: copy-construct a plain `base`-typed object from the
proxy's current value; the copy carries no back-reference. -/
def Storage.baseCopy {V : Type} (s : Storage V) : V := s.value

/-- One element of a `__reduce__` argument tuple: a base-type reference, an
instance back-reference, or a plain copied value. -/
inductive ReduceArg (V : Type) where
  | basename (b : String)
  | objref (o : Nat)
  | plainCopy (v : V)
deriving DecidableEq

/-- `_MemparamStorage.__reduce__`: returns `(memparamstorage, (self.base,
self.obj, self.base(self)))`.  Pickling serializes exactly this callable
name and argument tuple. -/
def Storage.reduceTuple {V : Type} (s : Storage V) :
    String × List (ReduceArg V) :=
  ("memparamstorage", [ReduceArg.basename s.base, ReduceArg.objref s.obj,
    ReduceArg.plainCopy s.baseCopy])

/-- Unpickling: apply the reconstruction callable named in a `__reduce__`
tuple to its arguments. -/
def applyReduce {V : Type} (r : String × List (ReduceArg V)) :
    Option (Storage V) :=
  if r.1 = "memparamstorage" then
    match r.2 with
    | [ReduceArg.basename b, ReduceArg.objref o, ReduceArg.plainCopy v] =>
        some (memparamstorage b o v)
    | _ => none
  else none

/-- Claim C9 counterexample: the claim says the serialized form never
contains the back-reference to the owning instance, but the `__reduce__`
tuple of a proxy owned by instance 7 contains `self.obj = 7` as its second
reconstruction argument. -/
theorem reduce_backreference_serialized :
    ReduceArg.objref 7
      ∈ (Storage.reduceTuple (⟨"list", 7, 42⟩ : Storage Nat)).2 := by
  decide

/-- Claim C9 as amended: copying/serializing a proxy re-derives, through
`memparamstorage`, a fresh proxy of the same base type around a plain copy
of the current value — the copy itself carries no back-reference — but the
serialized reconstruction arguments do include the back-reference to the
owning instance. -/
theorem reduce_rederives_fresh_proxy {V : Type} (s : Storage V) :
    applyReduce s.reduceTuple = some (memparamstorage s.base s.obj s.baseCopy)
    ∧ (memparamstorage s.base s.obj s.baseCopy).base = s.base
    ∧ (memparamstorage s.base s.obj s.baseCopy).value = s.baseCopy
    ∧ ReduceArg.objref s.obj ∈ s.reduceTuple.2 := by
  refine ⟨?_, rfl, rfl, ?_⟩
  · simp [applyReduce, Storage.reduceTuple]
  · simp [Storage.reduceTuple]

/-! ## Memparams descriptor (memoize/memparams.py, lines 14-67)

An instance carries its own identity, an optional `_memparams_storage`
dict (`none` models the attribute not existing) and its method cache.  The
instances modelled here have no registered friends, so
`memoize_method.clear_cache(obj)` reduces to emptying `obj`'s own cache.

`__set__` stores the wrapped value under `self.key = (self.base,
self.name)`; `__delete__` however executes `del storage[self]`, indexing
the dict by the descriptor object itself — a key that `__set__` never
stores — so the storage-dict keys distinguish the two kinds. -/

/-- A key of the `_memparams_storage` dict: either a `(base, name)` pair
(what `__set__` stores under) or a descriptor object identity (what
`__delete__` indexes by). -/
inductive PKey where
  | pair (base : String) (name : String)
  | descr (did : Nat)
deriving DecidableEq

/-- A `Memparams` data descriptor: `base`, `name`, and the descriptor
object's own identity. -/
structure Memparams where
  base : String
  name : String
  descrId : Nat
deriving DecidableEq

/-- `self.key = (base, name)`. -/
def Memparams.key (p : Memparams) : PKey := PKey.pair p.base p.name

/-- An instance holding Memparams slots and a method cache. -/
structure PInst (V R : Type) where
  objId : Nat
  storage : Option (List (PKey × Storage V))
  methodCache : MCache R
deriving DecidableEq

/-- `memoize_method.clear_cache(obj)` for an instance with no friends:
empty the method cache. -/
def clearOwnCache {V R : Type} (s : PInst V R) : PInst V R :=
  { s with methodCache := [] }

/-- Python dict assignment `d[k] = v`: overwrite an existing binding or
append a new one. -/
def setAssoc {α β : Type} [DecidableEq α] (l : List (α × β)) (k : α)
    (v : β) : List (α × β) :=
  if (lookupA k l).isSome then
    l.map (fun p => if p.1 = k then (k, v) else p)
  else l ++ [(k, v)]

/-- Python dict deletion `del d[k]` with the key present: drop the
binding. -/
def removeAssoc {α β : Type} [DecidableEq α] (l : List (α × β)) (k : α) :
    List (α × β) :=
  l.filter (fun p => decide (p.1 ≠ k))

/-- Exceptions of interest raised by `Memparams` operations. -/
inductive PyErr where
  | keyError
  | attributeError
deriving DecidableEq

/-- `Memparams.__set__(obj, value)`: wrap the value via
`memparamstorage(self.base, obj, value)`, store it under `self.key`
(creating the storage dict if needed), then clear the instance's method
cache. -/
def Memparams.set {V R : Type} (p : Memparams) (s : PInst V R) (v : V) :
    PInst V R :=
  let wrapped := memparamstorage p.base s.objId v
  let storage2 :=
    match s.storage with
    | some st => setAssoc st p.key wrapped
    | none => [(p.key, wrapped)]
  clearOwnCache { s with storage := some storage2 }

/-- `Memparams.__get__(obj, objtype)`: return the stored proxy, or raise
`AttributeError` when the storage dict or the `self.key` binding is
absent. -/
def Memparams.get {V R : Type} (p : Memparams) (s : PInst V R) :
    Except PyErr (Storage V) :=
  match s.storage with
  | some st =>
    match lookupA p.key st with
    | some v => Except.ok v
    | none => Except.error PyErr.attributeError
  | none => Except.error PyErr.attributeError

/-- `Memparams.__delete__(obj)`: when the storage attribute exists, run
`del storage[self]` — indexed by the descriptor object, not by `self.key` —
which raises `KeyError` whenever that key is absent; on success drop the
attribute if the dict became empty; finally clear the method cache.  The
second component is the escaping exception (`none` for normal return); when
an exception is raised the instance is returned as it was. -/
def Memparams.delete {V R : Type} (p : Memparams) (s : PInst V R) :
    PInst V R × Option PyErr :=
  match s.storage with
  | some st =>
    match lookupA (PKey.descr p.descrId) st with
    | none => (s, some PyErr.keyError)
    | some _ =>
      let st2 := removeAssoc st (PKey.descr p.descrId)
      let s2 := if st2.isEmpty then { s with storage := none }
                else { s with storage := some st2 }
      (clearOwnCache s2, none)
  | none => (clearOwnCache s, none)

/-- Claim C6: immediately after a `Memparams` slot is set, and after any
completed slot deletion, the instance's method cache is empty, so the next
memoized method call — even with arguments identical to a previously cached
call — invokes the underlying function again. -/
theorem slot_set_clears_cache {V R : Type} (p : Memparams)
    (s s2 : PInst V R) (v : V) (hashable : Nat → Bool) (m : MMethod R)
    (obj : Nat) (args : List Nat) (w : R)
    (hprev : lookupA (methodKey m obj args) s.methodCache = some w)
    (hdel : Memparams.delete p s = (s2, none)) :
    (Memparams.set p s v).methodCache = []
    ∧ s2.methodCache = []
    ∧ (memoize_method.call hashable m obj args
        (Memparams.set p s v).methodCache).2.2 = true := by
  have hset : (Memparams.set p s v).methodCache = [] := rfl
  refine ⟨hset, ?_, ?_⟩
  · cases hst : s.storage with
    | none =>
      simp only [Memparams.delete, hst] at hdel
      have h1 := congrArg Prod.fst hdel
      simp only at h1
      rw [← h1]
      rfl
    | some st =>
      cases hl : lookupA (PKey.descr p.descrId) st with
      | none =>
        simp only [Memparams.delete, hst, hl] at hdel
        have h2 := congrArg Prod.snd hdel
        simp at h2
      | some q =>
        simp only [Memparams.delete, hst, hl] at hdel
        have h1 := congrArg Prod.fst hdel
        simp only at h1
        rw [← h1]
        by_cases he : (removeAssoc st (PKey.descr p.descrId)).isEmpty = true
          <;> simp [clearOwnCache, he]
  · rw [hset]
    by_cases hall : (methodKey m obj args).2.all (fun q => hashable q.2) = true
    · simp [memoize_method.call, hall, lookupA]
    · simp [memoize_method.call, hall, lookupA]

/-- Witness for `slot_set_clears_cache`: an instance with a previously
cached call and no slot storage; setting the slot empties the cache, the
(completing) deletion empties it too, and the next call recomputes. -/
theorem slot_set_clears_cache_witness :
    lookupA (methodKey (⟨"meth", "self", ["x"], fun o a => o + a.headD 0⟩ :
        MMethod Nat) 2 [5])
      [((("meth" : String), [(("x" : String), 5)]), (12 : Nat))] = some 12
    ∧ Memparams.delete ⟨"list", "data", 7⟩
        (⟨5, none, [((("meth" : String), [(("x" : String), 5)]), 12)]⟩ :
          PInst Nat Nat)
      = (⟨5, none, []⟩, none)
    ∧ ((Memparams.set ⟨"list", "data", 7⟩
          (⟨5, none, [((("meth" : String), [(("x" : String), 5)]), 12)]⟩ :
            PInst Nat Nat) 42).methodCache = []
      ∧ (⟨5, none, ([] : MCache Nat)⟩ : PInst Nat Nat).methodCache = []
      ∧ (memoize_method.call (fun _ => true)
          ⟨"meth", "self", ["x"], fun o a => o + a.headD 0⟩ 2 [5]
          (Memparams.set ⟨"list", "data", 7⟩
            (⟨5, none, [((("meth" : String), [(("x" : String), 5)]), 12)]⟩ :
              PInst Nat Nat) 42).methodCache).2.2 = true) :=
  ⟨by decide, by decide,
   slot_set_clears_cache ⟨"list", "data", 7⟩
     ⟨5, none, [((("meth" : String), [(("x" : String), 5)]), 12)]⟩
     ⟨5, none, []⟩ 42 (fun _ => true)
     ⟨"meth", "self", ["x"], fun o a => o + a.headD 0⟩ 2 [5] 12
     (by decide) (by decide)⟩

/-- Claim C7 (refuted, code bug): deleting a slot that holds a value raises
`KeyError` — `del storage[self]` indexes the dict by the descriptor object
while `__set__` stores under `(base, name)` — leaving the value stored and
the method cache uncleared; deleting when nothing was ever assigned returns
normally (clearing the cache) instead of signalling `NotSet`; only
`__get__` signals the attribute-access failure the claim describes. -/
theorem delete_is_broken :
    Memparams.delete ⟨"list", "data", 7⟩
      (⟨5, some [(PKey.pair "list" "data", ⟨"list", 5, 42⟩)],
        [((("meth" : String), [(("x" : String), 5)]), 12)]⟩ : PInst Nat Nat)
      = (⟨5, some [(PKey.pair "list" "data", ⟨"list", 5, 42⟩)],
          [((("meth" : String), [(("x" : String), 5)]), 12)]⟩,
        some PyErr.keyError)
    ∧ Memparams.delete ⟨"list", "data", 7⟩ (⟨5, none, []⟩ : PInst Nat Nat)
      = (⟨5, none, []⟩, none)
    ∧ Memparams.get ⟨"list", "data", 7⟩ (⟨5, none, []⟩ : PInst Nat Nat)
      = Except.error PyErr.attributeError := by
  refine ⟨by decide, by decide, rfl⟩

/-! ## Mutator interception (memoize/memparams.py, lines 146-203)

`_memparamstorage` walks `Mutators.names` and, for every name that exists
on the derived storage class and is callable, replaces the method with
`_make_new_mutator(mutator)`, which first runs the underlying method and
then clears the memoize cache on `self.obj` before returning the method's
result.  A base type is modelled by its method table: for each attribute
name, possibly a function from the current value and an argument to the new
value and the returned result.  The owner is an instance with no friends,
so clearing its cache empties its method cache. -/

/-- `Mutators.names`: the enumerated attribute names treated as mutating. -/
def mutatorNames : List String :=
  ["__setattr__", "__delattr__", "__setitem__", "__delitem__",
   "__setslice__", "__delslice__", "__iadd__", "__isub__", "__imul__",
   "__imatmul__", "__idiv__", "__itruediv__", "__ifloordiv__", "__imod__",
   "__ipow__", "__ilshift__", "__irshift__", "__iand__", "__ixor__",
   "__ior__", "append", "appendleft", "clear", "discard", "extend",
   "extendleft", "insert", "pop", "popleft", "popitem", "remove",
   "reverse", "rotate", "setdefault", "sort", "subtract", "update"]

/-- A base type's method table: each named method maps the current value
and an argument to the updated value and a returned result. -/
structure BaseType (V A Res : Type) where
  methods : String → Option (V → A → V × Res)

/-- `_make_new_mutator(mutator)` applied at a call site: run the underlying
method, then clear the cache on the owning instance, then return the
method's result. -/
def makeNewMutator {V A Res R : Type} (mutator : V → A → V × Res) (v : V)
    (arg : A) (_ownerCache : MCache R) : V × Res × MCache R :=
  let r := mutator v arg
  (r.1, r.2, [])

/-- Invoking attribute `name` on a `_MemparamStorage` proxy wrapping `v`
whose owner's method cache is `ownerCache`: `none` when the base type has
no such method; the `_make_new_mutator`-wrapped method when `name` is in
`Mutators.names`; the untouched base method otherwise. -/
def proxyInvoke {V A Res R : Type} (b : BaseType V A Res) (name : String)
    (v : V) (arg : A) (ownerCache : MCache R) :
    Option (V × Res × MCache R) :=
  match b.methods name with
  | none => none
  | some m =>
    if name ∈ mutatorNames then some (makeNewMutator m v arg ownerCache)
    else some ((m v arg).1, (m v arg).2, ownerCache)

/-- Claim C8: every operation of the enumerated mutating set that the base
type supports performs the underlying operation and returns with the
owner's method cache cleared, while operations outside the enumerated set
(reads, iteration, comparisons) perform the underlying operation and leave
the owner's cache untouched. -/
theorem mutators_clear_owner_cache {V A Res R : Type} (b : BaseType V A Res)
    (name : String) (v : V) (arg : A) (ownerCache : MCache R)
    (m : V → A → V × Res) (hm : b.methods name = some m) :
    (name ∈ mutatorNames →
      proxyInvoke b name v arg ownerCache
        = some ((m v arg).1, (m v arg).2, []))
    ∧ (name ∉ mutatorNames →
      proxyInvoke b name v arg ownerCache
        = some ((m v arg).1, (m v arg).2, ownerCache)) := by
  constructor
  · intro hmem
    simp [proxyInvoke, hm, hmem, makeNewMutator]
  · intro hmem
    simp [proxyInvoke, hm, hmem]

/-- Witness for `mutators_clear_owner_cache`: wrapping a list value whose
base type supports `append`; since `append` is in `Mutators.names`, the
call appends and returns with the owner's cache emptied. -/
theorem mutators_clear_owner_cache_witness :
    (⟨fun _ => some (fun v a => (v ++ [a], v.length))⟩ :
        BaseType (List Nat) Nat Nat).methods "append"
      = some (fun v a => (v ++ [a], v.length))
    ∧ (("append" ∈ mutatorNames →
        proxyInvoke (⟨fun _ => some (fun v a => (v ++ [a], v.length))⟩ :
            BaseType (List Nat) Nat Nat) "append" [1, 2] 3
          [((("meth" : String), [(("x" : String), 5)]), (12 : Nat))]
        = some ([1, 2, 3], 2, []))
      ∧ ("append" ∉ mutatorNames →
        proxyInvoke (⟨fun _ => some (fun v a => (v ++ [a], v.length))⟩ :
            BaseType (List Nat) Nat Nat) "append" [1, 2] 3
          [((("meth" : String), [(("x" : String), 5)]), (12 : Nat))]
        = some ([1, 2, 3], 2,
            [((("meth" : String), [(("x" : String), 5)]), (12 : Nat))]))) :=
  ⟨rfl,
   mutators_clear_owner_cache
     (⟨fun _ => some (fun v a => (v ++ [a], v.length))⟩ :
       BaseType (List Nat) Nat Nat) "append" [1, 2] 3
     [((("meth" : String), [(("x" : String), 5)]), (12 : Nat))]
     (fun v a => (v ++ [a], v.length)) rfl⟩

end Memoize
